import Mathlib

/-!
Shallow embedding of the OCR pipeline of `wfm_cli` (`src/cli/src/ocr.rs`)
and proofs about it.

Conventions of the embedding:
* Rust `f64` arithmetic is modelled by exact rational arithmetic (`ℚ`);
  all values reached by the functions below are dyadic-free small rationals,
  and the source operations (`+`, `-`, `*`, `/`, `max`, `min`, comparisons,
  `%`, `rem_euclid`, `round`) are translated to their exact counterparts.
* Rust `u8` channel values are modelled as `Nat` (with `≤ 255` bounds where a
  statement needs them).
* A Rust panic (`Option::unwrap` on `None`) is modelled by returning `none`.
-/

/-- Truncation toward zero, the rounding used by Rust's `%` on floats. -/
def rustTrunc (q : ℚ) : ℤ := if 0 ≤ q then ⌊q⌋ else ⌈q⌉

/-- Rust `a % b` on floats: remainder with the sign of the dividend. -/
def rustRem (a b : ℚ) : ℚ := a - b * rustTrunc (a / b)

/-- Rust `a.rem_euclid(b)` for `b > 0`: the least nonnegative remainder. -/
def remEuclid (a b : ℚ) : ℚ := a - b * ⌊a / b⌋

/-- Rust `q.round() as u8`: round half away from zero, then saturate to
`[0, 255]` (the behaviour of `as u8` on a finite float). -/
def rustRoundU8 (q : ℚ) : ℕ :=
  (max 0 (min 255 (if 0 ≤ q then ⌊q + 1/2⌋ else ⌈q - 1/2⌉))).toNat

/-- HSV colour triple, from `struct Hsv` in `ocr.rs` (fields `h`, `s`, `v`,
`f64` there, exact rationals here). -/
structure Hsv where
  h : ℚ
  s : ℚ
  v : ℚ
deriving DecidableEq

/-- `Hsv::new` from `ocr.rs`. -/
def Hsv.new (h s v : ℚ) : Hsv := ⟨h, s, v⟩

/-- `to_hsv` from `ocr.rs` (lines 185–211), translated literally: note that in
the source the `.rem_euclid(360.0)` postfix applies to the whole
`if`/`else if` chain (whose value lies in `(-6, 6)`), and the result is then
multiplied by `60.0`. -/
def to_hsv (r g b : ℕ) : Hsv :=
  let r_ : ℚ := (r : ℚ) / 255
  let g_ : ℚ := (g : ℚ) / 255
  let b_ : ℚ := (b : ℚ) / 255
  let cmax := max r_ (max g_ b_)
  let cmin := min r_ (min g_ b_)
  let delta := cmax - cmin
  let hue := 60 *
    remEuclid
      (if delta = 0 then 0
       else if cmax = r_ then rustRem ((g_ - b_) / delta) 6
       else if cmax = g_ then (b_ - r_) / delta + 2
       else (r_ - g_) / delta + 4)
      360
  let sat := if cmax = 0 then 0 else delta / cmax
  let value := cmax
  Hsv.new hue sat value

/-- `to_rgb` from `ocr.rs` (lines 213–230). -/
def to_rgb (h s v : ℚ) : ℕ × ℕ × ℕ :=
  let c := v * s
  let x := c * (1 - |remEuclid (h / 60) 2 - 1|)
  let m := v - c
  let rgb :=
    if 0 ≤ h ∧ h < 60 then (c, x, (0 : ℚ))
    else if 60 ≤ h ∧ h < 120 then (x, c, 0)
    else if 120 ≤ h ∧ h < 180 then (0, c, x)
    else if 180 ≤ h ∧ h < 240 then (0, x, c)
    else if 240 ≤ h ∧ h < 300 then (x, 0, c)
    else (c, 0, x)
  (rustRoundU8 ((rgb.1 + m) * 255),
   rustRoundU8 ((rgb.2.1 + m) * 255),
   rustRoundU8 ((rgb.2.2 + m) * 255))

lemma to_hsv_black : to_hsv 0 0 0 = Hsv.new 0 0 0 := by
  simp only [to_hsv, rustRem, rustTrunc, remEuclid, Hsv.new, Hsv.mk.injEq]
  norm_num

lemma to_hsv_white : to_hsv 255 255 255 = Hsv.new 0 0 1 := by
  simp only [to_hsv, rustRem, rustTrunc, remEuclid, Hsv.new, Hsv.mk.injEq]
  norm_num

lemma to_hsv_red : to_hsv 255 0 0 = Hsv.new 0 1 1 := by
  simp only [to_hsv, rustRem, rustTrunc, remEuclid, Hsv.new, Hsv.mk.injEq]
  norm_num

lemma to_hsv_green : to_hsv 0 255 0 = Hsv.new 120 1 1 := by
  simp only [to_hsv, rustRem, rustTrunc, remEuclid, Hsv.new, Hsv.mk.injEq]
  norm_num

lemma to_hsv_blue : to_hsv 0 0 255 = Hsv.new 240 1 1 := by
  simp only [to_hsv, rustRem, rustTrunc, remEuclid, Hsv.new, Hsv.mk.injEq]
  norm_num

/-- At input `(255, 0, 1)` the maximal channel is red and `g < b`, so the
branch value `(g-b)/delta % 6 = -1/255` is negative and `rem_euclid(360)`
lifts it to `360 - 1/255` before the multiplication by `60`. -/
lemma to_hsv_hue_255_0_1 : (to_hsv 255 0 1).h = 367196/17 := by
  have h1 : (⌈(-(1/1530) : ℚ)⌉ : ℤ) = 0 := by norm_num
  have h2 : (⌊(-(1/255) - 6 * ((0 : ℤ) : ℚ)) / 360⌋ : ℤ) = -1 := by norm_num
  simp only [to_hsv, rustRem, rustTrunc, remEuclid, Hsv.new]
  norm_num [h1, h2]

lemma to_rgb_eval_black : to_rgb 0 0 0 = (0, 0, 0) := by
  simp only [to_rgb, rustRoundU8, remEuclid, Prod.mk.injEq]
  norm_num

lemma to_rgb_eval_white : to_rgb 0 0 1 = (255, 255, 255) := by
  simp only [to_rgb, rustRoundU8, remEuclid, Prod.mk.injEq]
  norm_num
  try rfl

lemma to_rgb_eval_red : to_rgb 0 1 1 = (255, 0, 0) := by
  simp only [to_rgb, rustRoundU8, remEuclid, Prod.mk.injEq]
  norm_num
  try rfl

lemma to_rgb_eval_green : to_rgb 120 1 1 = (0, 255, 0) := by
  simp only [to_rgb, rustRoundU8, remEuclid, Prod.mk.injEq]
  norm_num
  try rfl

lemma to_rgb_eval_blue : to_rgb 240 1 1 = (0, 0, 255) := by
  simp only [to_rgb, rustRoundU8, remEuclid, Prod.mk.injEq]
  norm_num
  try rfl

/-- An RGBA pixel (`image::Rgba<u8>`), channels as naturals. -/
structure Rgba where
  r : ℕ
  g : ℕ
  b : ℕ
  a : ℕ
deriving DecidableEq

/-- A bitmap (`image::DynamicImage`): a width, a height and a pixel map.
`pix` is total; only the values at coordinates `x < width`, `y < height`
correspond to the bitmap's pixels. -/
@[ext]
structure Image where
  width : ℕ
  height : ℕ
  pix : ℕ → ℕ → Rgba

/-- `in_range` from `ocr.rs` (lines 173–183), translated literally
(the source returns `false` as soon as one component is below its lower or
above its upper bound, else `true`). -/
def in_range (color : Hsv) (lower upper : ℚ × ℚ × ℚ) : Bool :=
  if color.h < lower.1 ∨ color.h > upper.1 then false
  else if color.s < lower.2.1 ∨ color.s > upper.2.1 then false
  else if color.v < lower.2.2 ∨ color.v > upper.2.2 then false
  else true

/-- `IMG_MAX_WHITE_DEV` from `ocr.rs` (line 12). -/
def IMG_MAX_WHITE_DEV : ℚ := 45

/-- `pixel_dev` from `ocr.rs` (lines 169–171); defined in the source but
called from nowhere. -/
def pixel_dev (pixel : Rgba) : ℚ :=
  (255 - (pixel.r : ℚ)) + (255 - (pixel.g : ℚ)) + (255 - (pixel.b : ℚ))

/-- The lower HSV threshold passed to `in_range` by `remove_not_text`:
`(0.075 * 360.0, 0.111, 0.416)`. -/
def filterLower : ℚ × ℚ × ℚ := (75/1000 * 360, 111/1000, 416/1000)

/-- The upper HSV threshold passed to `in_range` by `remove_not_text`:
`(0.35 * 360.0, 1.0, 1.0)`. -/
def filterUpper : ℚ × ℚ × ℚ := (35/100 * 360, 1, 1)

/-- `remove_not_text` from `ocr.rs` (lines 145–167): clone the input, then for
every pixel of the input (all in-bounds coordinates) write opaque black
`(0,0,0,255)` if its HSV fails the `in_range` test, else write the original
colour back (alpha included).  The `max_dev` argument is never read by the
body. -/
def remove_not_text (img : Image) (max_dev : ℚ) : Image :=
  { width := img.width
    height := img.height
    pix := fun x y =>
      if x < img.width ∧ y < img.height then
        let color := img.pix x y
        if in_range (to_hsv color.r color.g color.b) filterLower filterUpper then
          color
        else
          Rgba.mk 0 0 0 255
      else
        img.pix x y }

/-- `wfm_rs::response::ShortItem`, the catalog entry type.  Modelled from the
spec: the `wfm_rs` crate is an external dependency; §3 gives the fields
`id`, `url_name`, `thumb`, `item_name` (the matcher only reads `item_name`). -/
structure ShortItem where
  id : String
  url_name : String
  thumb : String
  item_name : String
deriving DecidableEq

/-- Modelled from the spec: the `levenshtein` crate is an external dependency;
§4.3 defines the distance as the minimum number of single-character
insertions, deletions and substitutions.  The textbook recursion is written
with a fuel argument so that it is structurally recursive (hence reducible by
the kernel); `levFuel_eq_of_fuel` below shows the result does not depend on
the fuel once the fuel is at least `|a| + |b|`. -/
def levFuel : ℕ → List Char → List Char → ℕ
  | _, [], ys => ys.length
  | _, x :: xs, [] => (x :: xs).length
  | 0, _, _ => 0
  | fuel + 1, x :: xs, y :: ys =>
      if x = y then levFuel fuel xs ys
      else 1 + min (levFuel fuel (x :: xs) ys)
                   (min (levFuel fuel xs (y :: ys)) (levFuel fuel xs ys))

/-- Levenshtein edit distance between two strings (`levenshtein(a, b)` in the
source; the name `levDist` avoids the clash with Mathlib's `levenshtein`). -/
def levDist (a b : String) : ℕ :=
  levFuel (a.data.length + b.data.length) a.data b.data

/-- The scan loop inside `find_closest_levenshtein_match`, carrying the
running `(lowest_levenshtein, lowest_item)` pair. -/
def find_closest_aux (target : String) :
    List ShortItem → ℕ → Option ShortItem → Option ShortItem
  | [], _, best => best
  | item :: rest, lowest, best =>
      let diff := levDist target item.item_name
      if diff < lowest then find_closest_aux target rest diff (some item)
      else find_closest_aux target rest lowest best

/-- `find_closest_levenshtein_match` from `ocr.rs` (lines 130–143):
`lowest_levenshtein` starts at `9999`, `lowest_item` at `None`, and the final
`lowest_item.unwrap()` panic is modelled by returning `none`. -/
def find_closest_levenshtein_match (items : List ShortItem) (target : String) :
    Option ShortItem :=
  find_closest_aux target items 9999 none

def neoLith : ShortItem := ShortItem.mk "idn" "neo_lith" "tn" "Neo Lith"

def mesoLith : ShortItem := ShortItem.mk "idm" "meso_lith" "tm" "Meso Lith"


/-- Failure cases of `OCREngine::ocr` (propagated through `anyhow::Result` in
the source): the screenshot cannot be opened/decoded, or a channel send or
receive fails. -/
inductive OcrError where
  | imageError (msg : String)
  | channelError
deriving DecidableEq

/-- `ITEM_CROP_SIZE` from `ocr.rs` (line 13). -/
def ITEM_CROP_SIZE : ℕ × ℕ := (250, 50)

/-- `ITEM_CROP_COORDS` from `ocr.rs` (line 14), indexed by the region index. -/
def ITEM_CROP_COORDS : Fin 4 → ℕ × ℕ
  | 0 => (470, 410)
  | 1 => (720, 410)
  | 2 => (960, 410)
  | 3 => (1200, 410)

/-- `DynamicImage::crop_imm` of the `image` crate, modelled as the `w × h`
view of `img` with top-left corner `(x, y)`. -/
def crop_imm (img : Image) (x y w h : ℕ) : Image :=
  Image.mk w h (fun i j => img.pix (x + i) (y + j))

/-- The send half of the loop in `OCREngine::ocr`: for each region index `i`
in order, crop the fixed region and send it to worker `i`'s inbound queue.
`sendOk i` tells whether the send to worker `i` succeeds (`crossbeam` send
fails only when the channel is disconnected); `?` propagates the first
failure.  The returned list records the performed sends `(worker, crop)`. -/
def sendCrops (img : Image) (sendOk : Fin 4 → Bool) :
    List (Fin 4) → Except OcrError (List (Fin 4 × Image))
  | [] => Except.ok []
  | i :: rest =>
      let cropped := crop_imm img (ITEM_CROP_COORDS i).1 (ITEM_CROP_COORDS i).2
        ITEM_CROP_SIZE.1 ITEM_CROP_SIZE.2
      if sendOk i then
        match sendCrops img sendOk rest with
        | Except.ok tl => Except.ok ((i, cropped) :: tl)
        | Except.error e => Except.error e
      else Except.error OcrError.channelError

/-- The receive half of the loop in `OCREngine::ocr`: block on the shared
outbound queue once per listed receive, pushing results in receipt order.
`recvs n` is the outcome of the `n`-th receive (`Except.error ()` models a
failed receive on a disconnected channel); `?` propagates the first
failure. -/
def recvResults (recvs : ℕ → Except Unit (ℕ × ShortItem)) :
    List ℕ → Except OcrError (List (ℕ × ShortItem))
  | [] => Except.ok []
  | n :: rest =>
      match recvs n with
      | Except.error _ => Except.error OcrError.channelError
      | Except.ok r =>
          match recvResults recvs rest with
          | Except.ok tl => Except.ok (r :: tl)
          | Except.error e => Except.error e

/-- The fan-in stage of `OCREngine::ocr`: collect the four receives
(in receipt order) and return them alongside the send trace. -/
def ocrRecv (recvs : ℕ → Except Unit (ℕ × ShortItem))
    (trace : List (Fin 4 × Image)) :
    Except OcrError (List (Fin 4 × Image) × List (ℕ × ShortItem)) :=
  match recvResults recvs (List.range 4) with
  | Except.error e => Except.error e
  | Except.ok results => Except.ok (trace, results)

/-- The fan-out stage of `OCREngine::ocr`: perform the four sends, then fan
in. -/
def ocrSend (sendOk : Fin 4 → Bool) (recvs : ℕ → Except Unit (ℕ × ShortItem))
    (img : Image) :
    Except OcrError (List (Fin 4 × Image) × List (ℕ × ShortItem)) :=
  match sendCrops img sendOk [0, 1, 2, 3] with
  | Except.error e => Except.error e
  | Except.ok trace => ocrRecv recvs trace

/-- `OCREngine::ocr` from `ocr.rs` (lines 106–126).  The effectful
collaborators are passed as parameters: `openImage` is `image::open`,
`sendOk i` the success of the send to worker `i`'s inbound queue, `recvs n`
the outcome of the `n`-th receive from the shared outbound queue.  On success
the result carries the trace of performed sends `(worker index, crop)` (for
specification purposes) alongside the result list the source returns. -/
def ocr (openImage : String → Except String Image) (sendOk : Fin 4 → Bool)
    (recvs : ℕ → Except Unit (ℕ × ShortItem)) (path : String) :
    Except OcrError (List (Fin 4 × Image) × List (ℕ × ShortItem)) :=
  match openImage path with
  | Except.error e => Except.error (OcrError.imageError e)
  | Except.ok img => ocrSend sendOk recvs img

lemma sendCrops_ok_iff (img : Image) (sendOk : Fin 4 → Bool) (l : List (Fin 4)) :
    (∃ t, sendCrops img sendOk l = Except.ok t) ↔ ∀ i ∈ l, sendOk i = true := by
  induction l with
  | nil =>
      constructor
      · intro _ i hi; cases hi
      · intro _; exact ⟨[], rfl⟩
  | cons i rest ih =>
      constructor
      · rintro ⟨t, ht⟩ j hj
        simp only [sendCrops] at ht
        by_cases h : sendOk i = true
        · rw [if_pos h] at ht
          rcases List.mem_cons.mp hj with hj | hj
          · rw [hj]; exact h
          · cases hr : sendCrops img sendOk rest with
            | ok tl => exact ih.mp ⟨tl, hr⟩ j hj
            | error e => rw [hr] at ht; cases ht
        · rw [if_neg h] at ht; cases ht
      · intro hall
        have hi : sendOk i = true := hall i (List.mem_cons_self i rest)
        rcases ih.mpr (fun j hj => hall j (List.mem_cons_of_mem _ hj)) with ⟨tl, htl⟩
        refine ⟨(i, crop_imm img (ITEM_CROP_COORDS i).1 (ITEM_CROP_COORDS i).2
          ITEM_CROP_SIZE.1 ITEM_CROP_SIZE.2) :: tl, ?_⟩
        simp only [sendCrops]
        rw [if_pos hi, htl]

lemma recvResults_ok_iff (recvs : ℕ → Except Unit (ℕ × ShortItem)) (l : List ℕ) :
    (∃ t, recvResults recvs l = Except.ok t) ↔ ∀ n ∈ l, ∃ r, recvs n = Except.ok r := by
  induction l with
  | nil =>
      constructor
      · intro _ n hn; cases hn
      · intro _; exact ⟨[], rfl⟩
  | cons n rest ih =>
      constructor
      · rintro ⟨t, ht⟩ m hm
        simp only [recvResults] at ht
        cases hr : recvs n with
        | error e => rw [hr] at ht; cases ht
        | ok r =>
            rw [hr] at ht
            rcases List.mem_cons.mp hm with hm | hm
            · rw [hm]; exact ⟨r, hr⟩
            · cases ht2 : recvResults recvs rest with
              | ok tl => exact ih.mp ⟨tl, ht2⟩ m hm
              | error e => rw [ht2] at ht; cases ht
      · intro hall
        rcases hall n (List.mem_cons_self n rest) with ⟨r, hr⟩
        rcases ih.mpr (fun m hm => hall m (List.mem_cons_of_mem _ hm)) with ⟨tl, htl⟩
        refine ⟨r :: tl, ?_⟩
        simp only [recvResults]
        rw [hr, htl]

lemma levFuel_nil_left (f : ℕ) (ys : List Char) : levFuel f [] ys = ys.length := by
  cases f <;> rfl

lemma levFuel_nil_right (f : ℕ) (x : Char) (xs : List Char) :
    levFuel f (x :: xs) [] = xs.length + 1 := by
  cases f <;> rfl

lemma levFuel_cons_cons (f : ℕ) (x y : Char) (xs ys : List Char) :
    levFuel (f + 1) (x :: xs) (y :: ys) =
      if x = y then levFuel f xs ys
      else 1 + min (levFuel f (x :: xs) ys)
                   (min (levFuel f xs (y :: ys)) (levFuel f xs ys)) := rfl

/-- The fuelled recursion is fuel-independent once the fuel is at least the
total length of the two lists, so `levDist` computes the textbook
distance. -/
lemma levFuel_eq_of_fuel :
    ∀ (n : ℕ) (a b : List Char), a.length + b.length ≤ n →
      ∀ f g, a.length + b.length ≤ f → a.length + b.length ≤ g →
        levFuel f a b = levFuel g a b := by
  intro n
  induction n with
  | zero =>
      intro a b hn f g _ _
      match a, b with
      | [], ys => rw [levFuel_nil_left, levFuel_nil_left]
      | x :: xs, [] => rw [levFuel_nil_right, levFuel_nil_right]
  | succ n ih =>
      intro a b hn f g hf hg
      match a, b with
      | [], ys => rw [levFuel_nil_left, levFuel_nil_left]
      | x :: xs, [] => rw [levFuel_nil_right, levFuel_nil_right]
      | x :: xs, y :: ys =>
          simp only [List.length_cons] at hn hf hg
          cases f with
          | zero => omega
          | succ f1 =>
              cases g with
              | zero => omega
              | succ g1 =>
                  rw [levFuel_cons_cons, levFuel_cons_cons]
                  have e1 : levFuel f1 xs ys = levFuel g1 xs ys :=
                    ih xs ys (by omega) f1 g1 (by omega) (by omega)
                  have e2 : levFuel f1 (x :: xs) ys = levFuel g1 (x :: xs) ys :=
                    ih (x :: xs) ys (by simp; omega) f1 g1 (by simp; omega)
                      (by simp; omega)
                  have e3 : levFuel f1 xs (y :: ys) = levFuel g1 xs (y :: ys) :=
                    ih xs (y :: ys) (by simp; omega) f1 g1 (by simp; omega)
                      (by simp; omega)
                  rw [e1, e2, e3]

lemma levFuel_self (xs : List Char) : ∀ f, levFuel f xs xs = 0 := by
  induction xs with
  | nil => intro f; rw [levFuel_nil_left]; rfl
  | cons x xs ih =>
      intro f
      cases f with
      | zero => rfl
      | succ f1 => rw [levFuel_cons_cons, if_pos rfl]; exact ih f1

lemma levFuel_eq_zero :
    ∀ (n : ℕ) (a b : List Char), a.length + b.length ≤ n →
      (levFuel n a b = 0 ↔ a = b) := by
  intro n
  induction n with
  | zero =>
      intro a b hn
      match a, b with
      | [], [] => simp [levFuel_nil_left]
      | [], y :: ys => simp at hn
      | x :: xs, b => simp at hn
  | succ n ih =>
      intro a b hn
      match a, b with
      | [], ys => simp [levFuel_nil_left, eq_comm, List.length_eq_zero]
      | x :: xs, [] => simp [levFuel_nil_right]
      | x :: xs, y :: ys =>
          simp only [List.length_cons] at hn
          rw [levFuel_cons_cons]
          by_cases hxy : x = y
          · rw [if_pos hxy, ih xs ys (by omega)]
            simp [hxy]
          · rw [if_neg hxy]
            constructor
            · intro h; omega
            · intro h
              exact absurd (List.cons.injEq x xs y ys ▸ congrArg id h) (by simp [hxy])

lemma levDist_self (a : String) : levDist a a = 0 := by
  unfold levDist; exact levFuel_self a.data _

lemma levDist_eq_zero (a b : String) : levDist a b = 0 ↔ a = b := by
  unfold levDist
  rw [levFuel_eq_zero (a.data.length + b.data.length) a.data b.data le_rfl]
  constructor
  · intro h
    cases a; cases b
    exact congrArg String.mk (by simpa using h)
  · intro h; rw [h]

/-- If no remaining entry beats the running lowest distance, the loop keeps
the running best unchanged. -/
lemma find_closest_aux_of_ge (target : String) :
    ∀ (items : List ShortItem) (lowest : ℕ) (best : Option ShortItem),
      (∀ i ∈ items, lowest ≤ levDist target i.item_name) →
      find_closest_aux target items lowest best = best := by
  intro items
  induction items with
  | nil => intro _ _ _; rfl
  | cons a rest ih =>
      intro lowest best h
      have ha := h a (List.mem_cons_self a rest)
      simp only [find_closest_aux]
      rw [if_neg (by omega)]
      exact ih lowest best (fun i hi => h i (List.mem_cons_of_mem _ hi))

/-- Any entry produced by the loop either was the incoming best or is a list
entry strictly below the incoming threshold. -/
lemma find_closest_aux_some (target : String) :
    ∀ (items : List ShortItem) (lowest : ℕ) (best : Option ShortItem)
      (it : ShortItem),
      find_closest_aux target items lowest best = some it →
      best = some it ∨ (it ∈ items ∧ levDist target it.item_name < lowest) := by
  intro items
  induction items with
  | nil => intro lowest best it h; exact Or.inl h
  | cons a rest ih =>
      intro lowest best it h
      simp only [find_closest_aux] at h
      by_cases ha : levDist target a.item_name < lowest
      · rw [if_pos ha] at h
        rcases ih _ _ _ h with h1 | h1
        · cases h1
          exact Or.inr ⟨List.mem_cons_self a rest, ha⟩
        · exact Or.inr ⟨List.mem_cons_of_mem _ h1.1, lt_trans h1.2 ha⟩
      · rw [if_neg ha] at h
        rcases ih _ _ _ h with h1 | h1
        · exact Or.inl h1
        · exact Or.inr ⟨List.mem_cons_of_mem _ h1.1, h1.2⟩

/-- If some entry is strictly below the incoming threshold, the loop returns
the first entry achieving the minimum distance, whatever best came in. -/
lemma find_closest_aux_min (target : String) :
    ∀ (items : List ShortItem) (lowest : ℕ) (best : Option ShortItem),
      (∃ i ∈ items, levDist target i.item_name < lowest) →
      ∃ pre it suf, items = pre ++ it :: suf ∧
        find_closest_aux target items lowest best = some it ∧
        levDist target it.item_name < lowest ∧
        (∀ j ∈ pre, levDist target it.item_name < levDist target j.item_name) ∧
        (∀ j ∈ items, levDist target it.item_name ≤ levDist target j.item_name) := by
  intro items
  induction items with
  | nil => rintro _ _ ⟨i, hi, _⟩; cases hi
  | cons a rest ih =>
      intro lowest best hex
      by_cases ha : levDist target a.item_name < lowest
      · by_cases hrest : ∃ i ∈ rest, levDist target i.item_name <
            levDist target a.item_name
        · obtain ⟨pre, it, suf, heq, hres, hlt, hpre, hmin⟩ :=
            ih (levDist target a.item_name) (some a) hrest
          refine ⟨a :: pre, it, suf, by rw [heq, List.cons_append], ?_,
            lt_trans hlt ha, ?_, ?_⟩
          · simp only [find_closest_aux]
            rw [if_pos ha]
            exact hres
          · intro j hj
            rcases List.mem_cons.mp hj with hj | hj
            · rw [hj]; exact hlt
            · exact hpre j hj
          · intro j hj
            rcases List.mem_cons.mp hj with hj | hj
            · rw [hj]; exact le_of_lt hlt
            · exact hmin j hj
        · push_neg at hrest
          refine ⟨[], a, rest, rfl, ?_, ha, ?_, ?_⟩
          · simp only [find_closest_aux]
            rw [if_pos ha]
            exact find_closest_aux_of_ge target rest _ _ hrest
          · intro j hj; cases hj
          · intro j hj
            rcases List.mem_cons.mp hj with hj | hj
            · rw [hj]
            · exact hrest j hj
      · have hex2 : ∃ i ∈ rest, levDist target i.item_name < lowest := by
          rcases hex with ⟨i, hi, hilt⟩
          rcases List.mem_cons.mp hi with hi | hi
          · rw [hi] at hilt; omega
          · exact ⟨i, hi, hilt⟩
        obtain ⟨pre, it, suf, heq, hres, hlt, hpre, hmin⟩ := ih lowest best hex2
        refine ⟨a :: pre, it, suf, by rw [heq, List.cons_append], ?_, hlt, ?_, ?_⟩
        · simp only [find_closest_aux]
          rw [if_neg ha]
          exact hres
        · intro j hj
          rcases List.mem_cons.mp hj with hj | hj
          · rw [hj]; omega
          · exact hpre j hj
        · intro j hj
          rcases List.mem_cons.mp hj with hj | hj
          · rw [hj]; omega
          · exact hmin j hj

/-- The source's early-return chain in `in_range` accepts exactly the closed
box: every component at least its lower bound and at most its upper bound. -/
lemma in_range_iff (c : Hsv) (lo hi : ℚ × ℚ × ℚ) :
    in_range c lo hi = true ↔
      (lo.1 ≤ c.h ∧ c.h ≤ hi.1 ∧ lo.2.1 ≤ c.s ∧ c.s ≤ hi.2.1 ∧
       lo.2.2 ≤ c.v ∧ c.v ≤ hi.2.2) := by
  unfold in_range
  split_ifs with h1 h2 h3
  · simp only [Bool.false_eq_true, false_iff]
    intro hP
    rcases h1 with h | h
    · exact absurd hP.1 (not_le.mpr h)
    · exact absurd hP.2.1 (not_le.mpr h)
  · simp only [Bool.false_eq_true, false_iff]
    intro hP
    rcases h2 with h | h
    · exact absurd hP.2.2.1 (not_le.mpr h)
    · exact absurd hP.2.2.2.1 (not_le.mpr h)
  · simp only [Bool.false_eq_true, false_iff]
    intro hP
    rcases h3 with h | h
    · exact absurd hP.2.2.2.2.1 (not_le.mpr h)
    · exact absurd hP.2.2.2.2.2 (not_le.mpr h)
  · simp only [true_iff]
    push_neg at h1 h2 h3
    exact ⟨h1.1, h1.2, h2.1, h2.2, h3.1, h3.2⟩

/-- Opaque black fails the filter's range test (its hue `0` is below the
lower hue bound `27`). -/
lemma in_range_black :
    in_range (to_hsv 0 0 0) filterLower filterUpper = false := by
  rw [to_hsv_black]
  unfold in_range filterLower filterUpper Hsv.new
  rw [if_pos]
  exact Or.inl (by norm_num)

lemma to_hsv_200_180_40 : to_hsv 200 180 40 = Hsv.new (105/2) (4/5) (40/51) := by
  simp only [to_hsv, rustRem, rustTrunc, remEuclid, Hsv.new, Hsv.mk.injEq]
  norm_num

lemma to_hsv_10_10_10 : to_hsv 10 10 10 = Hsv.new 0 0 (2/51) := by
  simp only [to_hsv, rustRem, rustTrunc, remEuclid, Hsv.new, Hsv.mk.injEq]
  norm_num

/-- A catalog entry whose name is 9999 characters long, hence at Levenshtein
distance `9999` from the empty input. -/
def farItem : ShortItem := ShortItem.mk "" "" "" (String.mk (List.replicate 9999 'a'))

lemma levDist_far : levDist "" farItem.item_name = 9999 := by
  unfold levDist farItem
  rw [show ("" : String).data = [] from rfl, levFuel_nil_left]
  show (List.replicate 9999 'a').length = 9999
  rw [List.length_replicate]

lemma far_fails : find_closest_levenshtein_match [farItem] "" = none := by
  unfold find_closest_levenshtein_match
  apply find_closest_aux_of_ge
  intro i hi
  rw [List.mem_singleton.mp hi, levDist_far]

/-- A 2×1 test bitmap: pixel `(0,0)` is a warm text-like colour with alpha 7,
pixel `(1,0)` a dark gray. -/
def testImg : Image :=
  Image.mk 2 1 (fun x _ => if x = 0 then Rgba.mk 200 180 40 7 else Rgba.mk 10 10 10 9)

def sampleItem : ShortItem := ShortItem.mk "id" "url" "thumb" "Sample"

def blankImg : Image := Image.mk 1920 1080 (fun _ _ => Rgba.mk 0 0 0 255)

/-- C1: the claim says `to_hsv` always returns a hue in `[0, 360)`.  The code
violates this: at `(r,g,b) = (255, 0, 1)` the red channel is maximal with
`g < b`, the branch value `(g-b)/delta % 6 = -1/255` is negative, and the
source applies `rem_euclid(360.0)` to that branch value *before* scaling by
`60.0`, producing `60 · (360 - 1/255) = 367196/17 ≈ 21599.76`, far outside
`[0, 360)`. -/
theorem to_hsv_hue_out_of_range :
    (to_hsv 255 0 1).h = 367196/17 ∧ ¬ (to_hsv 255 0 1).h < 360 := by
  refine ⟨to_hsv_hue_255_0_1, ?_⟩
  rw [to_hsv_hue_255_0_1]
  norm_num

/-- C9: `to_hsv` maps the five reference colours exactly:
black `(0,0,0) ↦ (0,0,0)`, white `(255,255,255) ↦ (0,0,1)`,
red `(255,0,0) ↦ (0,1,1)`, green `(0,255,0) ↦ (120,1,1)`,
blue `(0,0,255) ↦ (240,1,1)`. -/
theorem to_hsv_reference_colors :
    to_hsv 0 0 0 = Hsv.new 0 0 0 ∧
    to_hsv 255 255 255 = Hsv.new 0 0 1 ∧
    to_hsv 255 0 0 = Hsv.new 0 1 1 ∧
    to_hsv 0 255 0 = Hsv.new 120 1 1 ∧
    to_hsv 0 0 255 = Hsv.new 240 1 1 :=
  ⟨to_hsv_black, to_hsv_white, to_hsv_red, to_hsv_green, to_hsv_blue⟩

/-- C8: for the five pure colours, `to_rgb ∘ to_hsv` reconstructs the
original 8-bit triple exactly. -/
theorem to_rgb_to_hsv_roundtrip :
    to_rgb (to_hsv 0 0 0).h (to_hsv 0 0 0).s (to_hsv 0 0 0).v = (0, 0, 0) ∧
    to_rgb (to_hsv 255 255 255).h (to_hsv 255 255 255).s (to_hsv 255 255 255).v
      = (255, 255, 255) ∧
    to_rgb (to_hsv 255 0 0).h (to_hsv 255 0 0).s (to_hsv 255 0 0).v = (255, 0, 0) ∧
    to_rgb (to_hsv 0 255 0).h (to_hsv 0 255 0).s (to_hsv 0 255 0).v = (0, 255, 0) ∧
    to_rgb (to_hsv 0 0 255).h (to_hsv 0 0 255).s (to_hsv 0 0 255).v = (0, 0, 255) := by
  refine ⟨?_, ?_, ?_, ?_, ?_⟩
  · rw [to_hsv_black]; exact to_rgb_eval_black
  · rw [to_hsv_white]; exact to_rgb_eval_white
  · rw [to_hsv_red]; exact to_rgb_eval_red
  · rw [to_hsv_green]; exact to_rgb_eval_green
  · rw [to_hsv_blue]; exact to_rgb_eval_blue

/-- C10: `remove_not_text` never reads its `max_dev` argument, so its output
is identical for any two threshold values; in particular the value
`IMG_MAX_WHITE_DEV` passed by the worker (and the unused `pixel_dev` helper)
never influence which pixels are kept. -/
theorem remove_not_text_independent_of_max_dev (img : Image) (v1 v2 : ℚ) :
    remove_not_text img v1 = remove_not_text img v2 ∧
    remove_not_text img IMG_MAX_WHITE_DEV = remove_not_text img v1 :=
  ⟨rfl, rfl⟩

/-- C7: the region filter is idempotent: every pixel it keeps passes the
range test again unchanged, and every pixel it blackened is opaque black,
whose hue `0` fails the test and is mapped to opaque black again. -/
theorem remove_not_text_idempotent (img : Image) (d : ℚ) :
    remove_not_text (remove_not_text img d) d = remove_not_text img d := by
  apply Image.ext
  · rfl
  · rfl
  · funext x y
    show (remove_not_text (remove_not_text img d) d).pix x y
        = (remove_not_text img d).pix x y
    by_cases hb : x < img.width ∧ y < img.height
    · have hbase : (remove_not_text img d).pix x y =
          if in_range (to_hsv (img.pix x y).r (img.pix x y).g (img.pix x y).b)
              filterLower filterUpper then img.pix x y
          else Rgba.mk 0 0 0 255 := by
        simp only [remove_not_text]
        rw [if_pos hb]
      have houter : (remove_not_text (remove_not_text img d) d).pix x y =
          if in_range (to_hsv ((remove_not_text img d).pix x y).r
              ((remove_not_text img d).pix x y).g
              ((remove_not_text img d).pix x y).b)
              filterLower filterUpper then (remove_not_text img d).pix x y
          else Rgba.mk 0 0 0 255 := by
        simp only [remove_not_text]
        rw [if_pos hb]
      rw [houter, hbase]
      by_cases hp : in_range (to_hsv (img.pix x y).r (img.pix x y).g
          (img.pix x y).b) filterLower filterUpper = true
      · rw [if_pos hp, if_pos hp]
      · rw [if_neg hp]
        split <;> rfl
    · have h1 : (remove_not_text img d).pix x y = img.pix x y := by
        simp only [remove_not_text]
        rw [if_neg hb]
      have h2 : (remove_not_text (remove_not_text img d) d).pix x y =
          (remove_not_text img d).pix x y := by
        simp only [remove_not_text]
        rw [if_neg hb]
      rw [h2]

/-- C4: the region filter keeps dimensions, copies (alpha included) every
pixel whose HSV lies in the closed box
`lower = (0.075·360, 0.111, 0.416)`, `upper = (0.35·360, 1, 1)`
(all boundaries inclusive), and replaces every other pixel by opaque black
`(0,0,0,255)`. -/
theorem remove_not_text_spec (img : Image) (d : ℚ) (x y : ℕ) :
    (remove_not_text img d).width = img.width ∧
    (remove_not_text img d).height = img.height ∧
    (x < img.width → y < img.height →
      (remove_not_text img d).pix x y =
        if (75/1000 * 360 : ℚ) ≤
              (to_hsv (img.pix x y).r (img.pix x y).g (img.pix x y).b).h ∧
            (to_hsv (img.pix x y).r (img.pix x y).g (img.pix x y).b).h ≤
              (35/100 * 360 : ℚ) ∧
            (111/1000 : ℚ) ≤
              (to_hsv (img.pix x y).r (img.pix x y).g (img.pix x y).b).s ∧
            (to_hsv (img.pix x y).r (img.pix x y).g (img.pix x y).b).s ≤ 1 ∧
            (416/1000 : ℚ) ≤
              (to_hsv (img.pix x y).r (img.pix x y).g (img.pix x y).b).v ∧
            (to_hsv (img.pix x y).r (img.pix x y).g (img.pix x y).b).v ≤ 1
        then img.pix x y
        else Rgba.mk 0 0 0 255) := by
  refine ⟨rfl, rfl, fun hx hy => ?_⟩
  have hpix : (remove_not_text img d).pix x y =
      if in_range (to_hsv (img.pix x y).r (img.pix x y).g (img.pix x y).b)
          filterLower filterUpper then img.pix x y
      else Rgba.mk 0 0 0 255 := by
    simp only [remove_not_text]
    rw [if_pos ⟨hx, hy⟩]
  rw [hpix]
  by_cases hp : (75/1000 * 360 : ℚ) ≤
        (to_hsv (img.pix x y).r (img.pix x y).g (img.pix x y).b).h ∧
      (to_hsv (img.pix x y).r (img.pix x y).g (img.pix x y).b).h ≤
        (35/100 * 360 : ℚ) ∧
      (111/1000 : ℚ) ≤
        (to_hsv (img.pix x y).r (img.pix x y).g (img.pix x y).b).s ∧
      (to_hsv (img.pix x y).r (img.pix x y).g (img.pix x y).b).s ≤ 1 ∧
      (416/1000 : ℚ) ≤
        (to_hsv (img.pix x y).r (img.pix x y).g (img.pix x y).b).v ∧
      (to_hsv (img.pix x y).r (img.pix x y).g (img.pix x y).b).v ≤ 1
  · have hc : in_range (to_hsv (img.pix x y).r (img.pix x y).g (img.pix x y).b)
        filterLower filterUpper = true :=
      (in_range_iff _ filterLower filterUpper).mpr hp
    rw [if_pos hc, if_pos hp]
  · have hc : ¬ in_range (to_hsv (img.pix x y).r (img.pix x y).g (img.pix x y).b)
        filterLower filterUpper = true :=
      fun hcc => hp ((in_range_iff _ filterLower filterUpper).mp hcc)
    rw [if_neg hc, if_neg hp]

theorem remove_not_text_spec_witness :
    (remove_not_text testImg 45).pix 0 0 = Rgba.mk 200 180 40 7 ∧
    (remove_not_text testImg 45).pix 1 0 = Rgba.mk 0 0 0 255 := by
  have h1 := (remove_not_text_spec testImg 45 0 0).2.2
    (by norm_num [testImg]) (by norm_num [testImg])
  have h2 := (remove_not_text_spec testImg 45 1 0).2.2
    (by norm_num [testImg]) (by norm_num [testImg])
  constructor
  · rw [h1, show testImg.pix 0 0 = Rgba.mk 200 180 40 7 from rfl,
      show (Rgba.mk 200 180 40 7).r = 200 from rfl,
      show (Rgba.mk 200 180 40 7).g = 180 from rfl,
      show (Rgba.mk 200 180 40 7).b = 40 from rfl,
      to_hsv_200_180_40]
    have hc : (75/1000 * 360 : ℚ) ≤ (Hsv.new (105/2) (4/5) (40/51)).h ∧
        (Hsv.new (105/2) (4/5) (40/51)).h ≤ (35/100 * 360 : ℚ) ∧
        (111/1000 : ℚ) ≤ (Hsv.new (105/2) (4/5) (40/51)).s ∧
        (Hsv.new (105/2) (4/5) (40/51)).s ≤ 1 ∧
        (416/1000 : ℚ) ≤ (Hsv.new (105/2) (4/5) (40/51)).v ∧
        (Hsv.new (105/2) (4/5) (40/51)).v ≤ 1 := by
      norm_num [Hsv.new]
    rw [if_pos hc]
  · rw [h2, show testImg.pix 1 0 = Rgba.mk 10 10 10 9 from rfl,
      show (Rgba.mk 10 10 10 9).r = 10 from rfl,
      show (Rgba.mk 10 10 10 9).g = 10 from rfl,
      show (Rgba.mk 10 10 10 9).b = 10 from rfl,
      to_hsv_10_10_10]
    have hc : ¬ ((75/1000 * 360 : ℚ) ≤ (Hsv.new 0 0 (2/51)).h ∧
        (Hsv.new 0 0 (2/51)).h ≤ (35/100 * 360 : ℚ) ∧
        (111/1000 : ℚ) ≤ (Hsv.new 0 0 (2/51)).s ∧
        (Hsv.new 0 0 (2/51)).s ≤ 1 ∧
        (416/1000 : ℚ) ≤ (Hsv.new 0 0 (2/51)).v ∧
        (Hsv.new 0 0 (2/51)).v ≤ 1) := by
      norm_num [Hsv.new]
    rw [if_neg hc]

/-- C2 (amended): provided some catalog entry is at distance `< 9999` from
the input, `find_closest_levenshtein_match` returns the entry with minimum
Levenshtein distance, the earliest such entry on ties; consequently an exact
match (distance 0) makes it return an entry whose name equals the input, and
on catalog `[Neo Lith, Meso Lith]` with input `"Neo Litn"` it returns the
`Neo Lith` entry. -/
theorem find_closest_returns_minimum :
    (∀ (items : List ShortItem) (target : String),
        (∃ i ∈ items, levDist target i.item_name < 9999) →
        ∃ pre it suf,
          items = pre ++ it :: suf ∧
          find_closest_levenshtein_match items target = some it ∧
          (∀ j ∈ items, levDist target it.item_name ≤ levDist target j.item_name) ∧
          (∀ j ∈ pre, levDist target it.item_name < levDist target j.item_name)) ∧
    (∀ (items : List ShortItem) (target : String) (e : ShortItem),
        e ∈ items → e.item_name = target →
        ∃ r, find_closest_levenshtein_match items target = some r ∧
          r.item_name = target) ∧
    find_closest_levenshtein_match [neoLith, mesoLith] "Neo Litn" = some neoLith := by
  have main : ∀ (items : List ShortItem) (target : String),
      (∃ i ∈ items, levDist target i.item_name < 9999) →
      ∃ pre it suf,
        items = pre ++ it :: suf ∧
        find_closest_levenshtein_match items target = some it ∧
        (∀ j ∈ items, levDist target it.item_name ≤ levDist target j.item_name) ∧
        (∀ j ∈ pre, levDist target it.item_name < levDist target j.item_name) := by
    intro items target hex
    obtain ⟨pre, it, suf, heq, hres, _, hpre, hmin⟩ :=
      find_closest_aux_min target items 9999 none hex
    exact ⟨pre, it, suf, heq, hres, hmin, hpre⟩
  refine ⟨main, ?_, by decide⟩
  intro items target e he hname
  have hd : levDist target e.item_name = 0 := by
    rw [hname]; exact levDist_self target
  obtain ⟨pre, it, suf, heq, hres, hmin, hpre⟩ :=
    main items target ⟨e, he, by rw [hd]; norm_num⟩
  refine ⟨it, hres, ?_⟩
  have hle : levDist target it.item_name ≤ 0 := hd ▸ hmin e he
  exact ((levDist_eq_zero target it.item_name).mp (Nat.le_zero.mp hle)).symm

theorem find_closest_returns_minimum_witness :
    ∃ pre it suf,
      ([neoLith, mesoLith] : List ShortItem) = pre ++ it :: suf ∧
      find_closest_levenshtein_match [neoLith, mesoLith] "Neo Litn" = some it ∧
      (∀ j ∈ [neoLith, mesoLith],
        levDist "Neo Litn" it.item_name ≤ levDist "Neo Litn" j.item_name) ∧
      (∀ j ∈ pre, levDist "Neo Litn" it.item_name < levDist "Neo Litn" j.item_name) :=
  find_closest_returns_minimum.1 [neoLith, mesoLith] "Neo Litn"
    ⟨neoLith, by decide, by decide⟩

/-- C2 as stated is false: on the non-empty catalog `[farItem]` and input
`""`, the entry `farItem` has (uniquely) minimal distance, yet the function
returns nothing because every distance is `≥ 9999`. -/
theorem find_closest_returns_minimum_cex :
    find_closest_levenshtein_match [farItem] "" ≠ some farItem ∧
    farItem ∈ ([farItem] : List ShortItem) ∧
    (∀ j ∈ ([farItem] : List ShortItem),
      levDist "" farItem.item_name ≤ levDist "" j.item_name) := by
  refine ⟨?_, List.mem_singleton.mpr rfl, ?_⟩
  · rw [far_fails]
    intro h
    cases h
  · intro j hj
    rw [List.mem_singleton.mp hj]

/-- C5 (amended): on an empty catalog `find_closest_levenshtein_match` fails
(the `lowest_item.unwrap()` panics on `None`; a reimplementation must surface
this as a recoverable `EmptyCatalogError`).  Emptiness is a sufficient
condition for failure but not the only one: a non-empty catalog whose entries
are all at distance `≥ 9999` also fails. -/
theorem find_closest_empty_catalog :
    (∀ target, find_closest_levenshtein_match [] target = none) ∧
    (∃ (items : List ShortItem) (target : String),
        items ≠ [] ∧ find_closest_levenshtein_match items target = none) :=
  ⟨fun _ => rfl, ⟨[farItem], "", by simp, far_fails⟩⟩

/-- C5 as stated is false in its "the condition" part: the non-empty catalog
`[farItem]` also makes the call fail. -/
theorem find_closest_empty_catalog_cex :
    ([farItem] : List ShortItem) ≠ [] ∧
    find_closest_levenshtein_match [farItem] "" = none :=
  ⟨by simp, far_fails⟩

/-- C6: the matcher only ever selects entries at distance strictly below the
initial threshold `9999`; when every entry of a (non-empty) catalog is at
distance `≥ 9999` the scan keeps `lowest_item = None` and the final unwrap
fails. -/
theorem find_closest_threshold :
    (∀ (items : List ShortItem) (target : String) (it : ShortItem),
        find_closest_levenshtein_match items target = some it →
        levDist target it.item_name < 9999) ∧
    (∀ (items : List ShortItem) (target : String),
        items ≠ [] →
        (∀ i ∈ items, 9999 ≤ levDist target i.item_name) →
        find_closest_levenshtein_match items target = none) := by
  constructor
  · intro items target it h
    rcases find_closest_aux_some target items 9999 none it h with h1 | h1
    · cases h1
    · exact h1.2
  · intro items target _ hall
    exact find_closest_aux_of_ge target items 9999 none hall

theorem find_closest_threshold_witness :
    find_closest_levenshtein_match [farItem] "" = none := by
  apply find_closest_threshold.2 [farItem] "" (by simp)
  intro i hi
  rw [List.mem_singleton.mp hi]
  exact le_of_eq levDist_far.symm

/-- C3: on a successfully opened screenshot, `ocr` crops exactly the four
fixed `250×50` regions at offsets `(470,410), (720,410), (960,410),
(1200,410)`, sends crop `i` to worker `i` for `i = 0..3`, then receives
exactly 4 times from the shared outbound queue and returns those results in
receipt order; and it returns a value exactly when the image opens, all four
sends succeed and the first four receives succeed. -/
theorem ocr_crops_and_collects (openImage : String → Except String Image)
    (sendOk : Fin 4 → Bool) (recvs : ℕ → Except Unit (ℕ × ShortItem))
    (path : String) :
    (∀ img r0 r1 r2 r3,
        openImage path = Except.ok img →
        (∀ i, sendOk i = true) →
        recvs 0 = Except.ok r0 → recvs 1 = Except.ok r1 →
        recvs 2 = Except.ok r2 → recvs 3 = Except.ok r3 →
        ocr openImage sendOk recvs path = Except.ok
          ([((0 : Fin 4), crop_imm img 470 410 250 50),
            (1, crop_imm img 720 410 250 50),
            (2, crop_imm img 960 410 250 50),
            (3, crop_imm img 1200 410 250 50)],
           [r0, r1, r2, r3])) ∧
    ((∃ v, ocr openImage sendOk recvs path = Except.ok v) ↔
      ((∃ img, openImage path = Except.ok img) ∧ (∀ i, sendOk i = true) ∧
       (∀ n, n < 4 → ∃ r, recvs n = Except.ok r))) := by
  constructor
  · intro img r0 r1 r2 r3 ho hs h0 h1 h2 h3
    unfold ocr
    rw [ho]
    show ocrSend sendOk recvs img = _
    unfold ocrSend
    have hsc : sendCrops img sendOk [0, 1, 2, 3] = Except.ok
        [((0 : Fin 4), crop_imm img 470 410 250 50),
         (1, crop_imm img 720 410 250 50),
         (2, crop_imm img 960 410 250 50),
         (3, crop_imm img 1200 410 250 50)] := by
      simp only [sendCrops, hs, if_true]
      rfl
    rw [hsc]
    show ocrRecv recvs _ = _
    unfold ocrRecv
    have hrc : recvResults recvs (List.range 4) = Except.ok [r0, r1, r2, r3] := by
      rw [show List.range 4 = [0, 1, 2, 3] from rfl]
      simp only [recvResults, h0, h1, h2, h3]
    rw [hrc]
  · constructor
    · rintro ⟨v, hv⟩
      unfold ocr at hv
      cases ho : openImage path with
      | error e => rw [ho] at hv; cases hv
      | ok img =>
          rw [ho] at hv
          have hv2 : ocrSend sendOk recvs img = Except.ok v := hv
          unfold ocrSend at hv2
          cases hsend : sendCrops img sendOk [0, 1, 2, 3] with
          | error e => rw [hsend] at hv2; cases hv2
          | ok t =>
              rw [hsend] at hv2
              have hv3 : ocrRecv recvs t = Except.ok v := hv2
              unfold ocrRecv at hv3
              cases hrecv : recvResults recvs (List.range 4) with
              | error e => rw [hrecv] at hv3; cases hv3
              | ok rs =>
                  refine ⟨⟨img, rfl⟩, ?_, ?_⟩
                  · intro i
                    apply (sendCrops_ok_iff img sendOk [0, 1, 2, 3]).mp ⟨t, hsend⟩
                    have hall : ∀ j : Fin 4, j ∈ ([0, 1, 2, 3] : List (Fin 4)) := by
                      decide
                    exact hall i
                  · intro n hn
                    exact (recvResults_ok_iff recvs (List.range 4)).mp ⟨rs, hrecv⟩
                      n (List.mem_range.mpr hn)
    · rintro ⟨⟨img, ho⟩, hs, hr⟩
      obtain ⟨t, ht⟩ :=
        (sendCrops_ok_iff img sendOk [0, 1, 2, 3]).mpr (fun i _ => hs i)
      obtain ⟨rs, hrs⟩ :=
        (recvResults_ok_iff recvs (List.range 4)).mpr
          (fun n hn => hr n (List.mem_range.mp hn))
      refine ⟨(t, rs), ?_⟩
      unfold ocr
      rw [ho]
      show ocrSend sendOk recvs img = _
      unfold ocrSend
      rw [ht]
      show ocrRecv recvs t = _
      unfold ocrRecv
      rw [hrs]

theorem ocr_crops_and_collects_witness :
    ocr (fun _ => Except.ok blankImg) (fun _ => true)
        (fun n => Except.ok (n, sampleItem)) "shot.png" =
      Except.ok
        ([((0 : Fin 4), crop_imm blankImg 470 410 250 50),
          (1, crop_imm blankImg 720 410 250 50),
          (2, crop_imm blankImg 960 410 250 50),
          (3, crop_imm blankImg 1200 410 250 50)],
         [(0, sampleItem), (1, sampleItem), (2, sampleItem), (3, sampleItem)]) :=
  (ocr_crops_and_collects (fun _ => Except.ok blankImg) (fun _ => true)
      (fun n => Except.ok (n, sampleItem)) "shot.png").1
    blankImg (0, sampleItem) (1, sampleItem) (2, sampleItem) (3, sampleItem)
    rfl (fun _ => rfl) rfl rfl rfl rfl
